import Mathlib

/-!
Verification of the Available-Slots computation engine of the booking-clinic
backend (`src/available-slots/available-slots.service.ts`, Supabase-backed, and
its Prisma-backed variant).  The service code is embedded shallowly: JavaScript
strings are Lean `String`s, JS `Map<string, number>` is an insertion-ordered
association list, JS numbers reaching the arithmetic are `Nat`/`Int` (all time
arithmetic in the source happens on nonnegative integers), and the `for` loop
over a shift is a recursion on an explicit bound so that every definition is
executable by the kernel.
-/

namespace BookingClinic

/-- Decimal digit character, `'0'` … `'9'`: models how JS renders one digit. -/
def digitChar (n : Nat) : Char := Char.ofNat (48 + n)

/-- Decimal rendering of a natural number, bounded recursion (the bound `b` is
an upper bound on the number, so `b = n + 1` always suffices).  Models the JS
`String(n)` conversion applied to a nonnegative integer. -/
def natDigitsB : Nat → Nat → List Char
  | 0, _ => []
  | b + 1, n => if n < 10 then [digitChar n] else natDigitsB b (n / 10) ++ [digitChar (n % 10)]

/-- Decimal rendering of a natural number; models JS `String(n)` for `n ≥ 0`. -/
def natDigits (n : Nat) : List Char := natDigitsB (n + 1) n

/-- Numeric value of a digit string; models JS `Number(s)` on strings of
decimal digits (the only shapes the service feeds to `Number`). -/
def numVal (cs : List Char) : Nat := cs.foldl (fun a c => a * 10 + (c.toNat - 48)) 0

/-- Models JS `s.padStart(2, '0')`. -/
def padStart2 (cs : List Char) : List Char :=
  if 2 ≤ cs.length then cs else List.replicate (2 - cs.length) '0' ++ cs

/-- Models JS `s.split(c)` for a one-character separator. -/
def splitOnChar (c : Char) : List Char → List (List Char)
  | [] => [[]]
  | x :: xs =>
    let r := splitOnChar c xs
    if x = c then [] :: r
    else (x :: r.headD []) :: r.tail

/-- Models JS `s.slice(a, b)` for `0 ≤ a ≤ b`. -/
def strSlice (s : String) (a b : Nat) : String := ⟨(s.data.drop a).take (b - a)⟩

/-- Models JS falsiness of an optional string parameter: `undefined`/`null`
and the empty string are falsy, every other string is truthy. -/
def jsFalsy : Option String → Bool
  | none => true
  | some s => s.isEmpty

/-- Lexicographic comparison of character lists by code point. -/
def charsLe : List Char → List Char → Bool
  | [], _ => true
  | _ :: _, [] => false
  | x :: xs, y :: ys => if x.toNat = y.toNat then charsLe xs ys else decide (x.toNat < y.toNat)

/-- Lexicographic string comparison by code point: the order the database's
`gte`/`lte` operators induce on the fixed-width ASCII timestamp strings the
bookings query compares. -/
def strLe (a b : String) : Bool := charsLe a.data b.data

/-- Source `timeToMinutes` (available-slots.service.ts:12-15):
`const [hh, mm] = t.split(':'); return Number(hh) * 60 + Number(mm);`.
Faithful on colon-separated digit strings, the only inputs the service
produces ("HH:MM" and Postgres "HH:MM:SS" time strings; extra components after
the second are ignored by the destructuring, exactly as in the source).  A
string without a colon makes the source return NaN; that unreachable case is
mapped to 0 here. -/
def timeToMinutes (t : String) : Nat :=
  match splitOnChar ':' t.data with
  | hh :: mm :: _ => numVal hh * 60 + numVal mm
  | _ => 0

/-- Source `minutesToHHMM` (available-slots.service.ts:20-24):
both components rendered in decimal and padded to two characters with '0'. -/
def minutesToHHMM (mins : Nat) : String :=
  ⟨padStart2 (natDigits (mins / 60)) ++ ':' :: padStart2 (natDigits (mins % 60))⟩

/-- The capacity-walk loop of the source (available-slots.service.ts:106-109):
`for (let t = start; t + duration <= end; t += duration)` — the emitted cursor
values, as a recursion on an explicit bound `b` on the number of remaining
iterations.  With `duration > 0`, any `b ≥ endt + 1 - t` is beyond the number
of iterations the loop performs (each iteration advances `t` by at least 1),
so the bound never truncates; with `duration = 0` the source loop never
terminates (see the termination theorem for claim C8). -/
def walkSlotsB (duration endt : Nat) : Nat → Nat → List Nat
  | 0, _ => []
  | b + 1, t => if t + duration ≤ endt then t :: walkSlotsB duration endt b (t + duration) else []

/-- The cursor values emitted by the source's capacity-walk loop started at
`start`, with the always-sufficient bound `endt + 1 - start`. -/
def walkSlots (duration endt start : Nat) : List Nat :=
  walkSlotsB duration endt (endt + 1 - start) start

/-- JS `Map.get`: the value stored at the first (unique) matching key. -/
def mapGet (m : List (String × Int)) (k : String) : Option Int :=
  match m with
  | [] => none
  | e :: rest => if e.1 == k then some e.2 else mapGet rest k

/-- JS `Map.set`: update the existing entry in place (insertion order kept),
or append a new entry at the end. -/
def mapSet (m : List (String × Int)) (k : String) (v : Int) : List (String × Int) :=
  match m with
  | [] => [(k, v)]
  | e :: rest => if e.1 == k then (k, v) :: rest else e :: mapSet rest k v

/-- Source loop building `bookedByTime` (available-slots.service.ts:91-96),
taking the already-truncated "HH:MM" strings of the bookings:
`bookedByTime.set(hhmm, (bookedByTime.get(hhmm) ?? 0) + 1)`. -/
def bookedByTime (hhmms : List String) : List (String × Int) :=
  hhmms.foldl (fun m hhmm => mapSet m hhmm ((mapGet m hhmm).getD 0 + 1)) []

/-- One row of `doctor_schedules` as selected by the service
(available-slots.service.ts:62-66), together with the two columns the query
filters on. -/
structure DoctorSchedule where
  doctor_id : String
  date : String
  is_available : Bool
  start_time : String
  end_time : String
  max_patients : Option Int
deriving DecidableEq

/-- Source per-shift capacity accumulation (available-slots.service.ts:101-110):
walk the shift and add `s.max_patients ?? 0` at each emitted "HH:MM" label. -/
def addShift (duration : Nat) (m : List (String × Int)) (s : DoctorSchedule) :
    List (String × Int) :=
  let start := timeToMinutes s.start_time
  let endt := timeToMinutes s.end_time
  let capPerSlot : Int := s.max_patients.getD 0
  (walkSlots duration endt start).foldl
    (fun m t => mapSet m (minutesToHHMM t) ((mapGet m (minutesToHHMM t)).getD 0 + capPerSlot)) m

/-- Source `capacityByTime` map after the loop over all schedules
(available-slots.service.ts:99-110). -/
def capacityByTime (duration : Nat) (schedules : List DoctorSchedule) :
    List (String × Int) :=
  schedules.foldl (addShift duration) []

/-- The `SlotStat` DTO (dto/index.ts): JS numbers modelled as `Int`. -/
structure SlotStat where
  time : String
  capacity : Int
  booked : Int
  available : Int
deriving DecidableEq

/-- The sort relation of the source comparator
`(a, b) => timeToMinutes(a.time) - timeToMinutes(b.time)`. -/
def slotLe (a b : SlotStat) : Prop := timeToMinutes a.time ≤ timeToMinutes b.time

instance : DecidableRel slotLe := fun a b => Nat.decLe (timeToMinutes a.time) (timeToMinutes b.time)

instance : IsTotal SlotStat slotLe := ⟨fun a b => Nat.le_total (timeToMinutes a.time) (timeToMinutes b.time)⟩

instance : IsTrans SlotStat slotLe := ⟨fun _ _ _ => Nat.le_trans⟩

/-- Source result construction (available-slots.service.ts:112-122): map the
capacity entries to SlotStats, keep `available > 0`, sort ascending by
`timeToMinutes`.  The JS `Array.prototype.sort` with this comparator is a
stable comparison sort; it is modelled with the stable `List.insertionSort`
(the generated time labels are pairwise distinct, so any comparison sort
produces this ordering). -/
def aggregate (duration : Nat) (schedules : List DoctorSchedule) (bookingHHMMs : List String) :
    List SlotStat :=
  let booked := bookedByTime bookingHHMMs
  let capacity := capacityByTime duration schedules
  List.insertionSort slotLe
    ((capacity.map (fun e =>
        let b := (mapGet booked e.1).getD 0
        { time := e.1, capacity := e.2, booked := b, available := max (e.2 - b) 0 })).filter
      (fun s => decide (0 < s.available)))

/-- One row of `services` with the column the service reads. -/
structure Service where
  id : String
  duration_minutes : Option Nat
deriving DecidableEq

/-- One row of `doctors` with the columns/joins the service filters on:
`doctor_services!inner(service_id)` is modelled as the list of service ids the
doctor is associated with. -/
structure Doctor where
  id : String
  clinic_id : String
  is_available : Bool
  service_ids : List String
deriving DecidableEq

/-- One row of `bookings` with the columns the service filters on;
`booking_time` is the stored "YYYY-MM-DD HH:MM:SS" timestamp string. -/
structure Booking where
  clinic_id : String
  service_id : String
  status : String
  booking_time : String
deriving DecidableEq

/-- Read-only snapshot of the four tables the service queries. -/
structure Db where
  services : List Service
  doctors : List Doctor
  schedules : List DoctorSchedule
  bookings : List Booking

/-- The query DTO; each parameter may be absent. -/
structure GetAvailableSlotsDto where
  clinic_id : Option String
  service_id : Option String
  date : Option String

/-- The two client errors the service throws (BadRequestException and
NotFoundException). -/
inductive SlotsError where
  | badRequest : String → SlotsError
  | notFound : String → SlotsError
deriving DecidableEq

/-- The doctors query (available-slots.service.ts:46-52): doctors of the
clinic with `is_available = true` and an inner join on
`doctor_services.service_id = service_id`. -/
def eligibleDoctors (db : Db) (clinic_id service_id : String) : List Doctor :=
  db.doctors.filter (fun d =>
    d.clinic_id == clinic_id && d.is_available && d.service_ids.contains service_id)

/-- The schedules query (available-slots.service.ts:62-68): rows of the date
with `is_available = true` and `doctor_id` among the eligible doctors. -/
def schedulesOn (db : Db) (doctorIds : List String) (date : String) : List DoctorSchedule :=
  db.schedules.filter (fun s =>
    s.date == date && s.is_available && doctorIds.contains s.doctor_id)

/-- The bookings query (available-slots.service.ts:76-85): same clinic and
service, status pending or paid, and `booking_time` inside the date's
24-hour span (timestamp strings compare lexicographically, which coincides
with the chronological order the database uses on this fixed-width format). -/
def activeBookings (db : Db) (clinic_id service_id date : String) : List Booking :=
  db.bookings.filter (fun b =>
    b.clinic_id == clinic_id && b.service_id == service_id &&
    (b.status == "pending" || b.status == "paid") &&
    strLe (date ++ " 00:00:00") b.booking_time &&
    strLe b.booking_time (date ++ " 23:59:59"))

/-- The whole `getAvailableSlots` operation (available-slots.service.ts:26-123)
over a database snapshot.  `.single()` on the services query yields a row only
when exactly one row matches, and the source turns both a query error and a
missing row into NotFoundException; a thrown BadRequestException/
NotFoundException is an `Except.error`. -/
def getAvailableSlots (db : Db) (params : GetAvailableSlotsDto) :
    Except SlotsError (List SlotStat) :=
  if jsFalsy params.clinic_id || jsFalsy params.service_id || jsFalsy params.date then
    .error (.badRequest "Missing query params")
  else
    let clinic_id := params.clinic_id.getD ""
    let service_id := params.service_id.getD ""
    let date := params.date.getD ""
    match db.services.filter (fun s => s.id == service_id) with
    | [service] =>
      let duration := service.duration_minutes.getD 30
      let doctors := eligibleDoctors db clinic_id service_id
      if doctors.isEmpty then .ok [] else
        let doctorIds := doctors.map Doctor.id
        let schedules := schedulesOn db doctorIds date
        if schedules.isEmpty then .ok [] else
          let bookings := activeBookings db clinic_id service_id date
          .ok (aggregate duration schedules (bookings.map (fun b => strSlice b.booking_time 11 16)))
    | _ => .error (.notFound "Service not found")

namespace PrismaVariant

/-!
The Prisma-backed variant of `AvailableSlotsService.getAvailableSlots`
(`src/unnamed/part_002`).  Its post-query aggregation is embedded separately
below, over the same row and DTO types; its inputs are the service duration,
the schedule rows (start/end as the time-of-day strings
`dateToTimeString` produces) and the bookings' extracted "HH:MM" strings
(`bookingTime.toTimeString().slice(0, 5)`).  The `Map` model and the sort
relation (whose comparator text is identical in both files) are shared.
-/

/-- Prisma-variant `timeToMinutes` (part_002:12-15). -/
def timeToMinutes (t : String) : Nat :=
  match splitOnChar ':' t.data with
  | hh :: mm :: _ => numVal hh * 60 + numVal mm
  | _ => 0

/-- Prisma-variant `minutesToHHMM` (part_002:20-24). -/
def minutesToHHMM (mins : Nat) : String :=
  ⟨padStart2 (natDigits (mins / 60)) ++ ':' :: padStart2 (natDigits (mins % 60))⟩

/-- Prisma-variant capacity-walk loop (part_002:117-120), bounded as in
`BookingClinic.walkSlotsB`. -/
def walkSlotsB (duration endt : Nat) : Nat → Nat → List Nat
  | 0, _ => []
  | b + 1, t => if t + duration ≤ endt then t :: walkSlotsB duration endt b (t + duration) else []

/-- Prisma-variant cursor walk from `start`. -/
def walkSlots (duration endt start : Nat) : List Nat :=
  walkSlotsB duration endt (endt + 1 - start) start

/-- Prisma-variant `bookedByTime` loop (part_002:103-107). -/
def bookedByTime (hhmms : List String) : List (String × Int) :=
  hhmms.foldl (fun m hhmm => mapSet m hhmm ((mapGet m hhmm).getD 0 + 1)) []

/-- Prisma-variant per-shift capacity accumulation (part_002:112-121). -/
def addShift (duration : Nat) (m : List (String × Int)) (s : DoctorSchedule) :
    List (String × Int) :=
  let start := timeToMinutes s.start_time
  let endt := timeToMinutes s.end_time
  let capPerSlot : Int := s.max_patients.getD 0
  (walkSlots duration endt start).foldl
    (fun m t => mapSet m (minutesToHHMM t) ((mapGet m (minutesToHHMM t)).getD 0 + capPerSlot)) m

/-- Prisma-variant `capacityByTime` (part_002:110-121). -/
def capacityByTime (duration : Nat) (schedules : List DoctorSchedule) :
    List (String × Int) :=
  schedules.foldl (addShift duration) []

/-- Prisma-variant result construction (part_002:124-132). -/
def aggregate (duration : Nat) (schedules : List DoctorSchedule) (bookingHHMMs : List String) :
    List SlotStat :=
  let booked := bookedByTime bookingHHMMs
  let capacity := capacityByTime duration schedules
  List.insertionSort slotLe
    ((capacity.map (fun e =>
        let b := (mapGet booked e.1).getD 0
        { time := e.1, capacity := e.2, booked := b, available := max (e.2 - b) 0 })).filter
      (fun s => decide (0 < s.available)))

end PrismaVariant

/-! ### Lemmas about the capacity-walk loop -/

theorem walkSlotsB_le {d e : Nat} : ∀ b t x, x ∈ walkSlotsB d e b t → t ≤ x := by
  intro b
  induction b with
  | zero => intro t x hx; simp [walkSlotsB] at hx
  | succ b ih =>
    intro t x hx
    rw [walkSlotsB] at hx
    split at hx
    · rcases List.mem_cons.mp hx with h | h
      · omega
      · have := ih (t + d) x h
        omega
    · simp at hx

theorem walkSlotsB_mem {d e : Nat} (hd : 0 < d) :
    ∀ b t x, e + 1 - t ≤ b → (x ∈ walkSlotsB d e b t ↔ ∃ k, x = t + k * d ∧ x + d ≤ e) := by
  intro b
  induction b with
  | zero =>
    intro t x hb
    rw [walkSlotsB]
    simp only [List.not_mem_nil, false_iff]
    rintro ⟨k, hk, hke⟩
    have hkd : 0 ≤ k * d := Nat.zero_le _
    omega
  | succ b ih =>
    intro t x hb
    rw [walkSlotsB]
    split
    · rename_i hguard
      rw [List.mem_cons, ih (t + d) x (by omega)]
      constructor
      · rintro (rfl | ⟨k, hk, hke⟩)
        · exact ⟨0, by omega, by omega⟩
        · exact ⟨k + 1, by rw [Nat.succ_mul]; omega, hke⟩
      · rintro ⟨k, hk, hke⟩
        cases k with
        | zero => left; omega
        | succ k => right; exact ⟨k, by rw [Nat.succ_mul] at hk; omega, hke⟩
    · rename_i hguard
      simp only [List.not_mem_nil, false_iff]
      rintro ⟨k, hk, hke⟩
      have hkd : 0 ≤ k * d := Nat.zero_le _
      omega

theorem walkSlots_mem {d e s : Nat} (hd : 0 < d) (x : Nat) :
    x ∈ walkSlots d e s ↔ ∃ k, x = s + k * d ∧ x + d ≤ e :=
  walkSlotsB_mem hd (e + 1 - s) s x (Nat.le_refl _)

theorem walkSlotsB_pairwise {d e : Nat} (hd : 0 < d) :
    ∀ b t, (walkSlotsB d e b t).Pairwise (· < ·) := by
  intro b
  induction b with
  | zero => intro t; rw [walkSlotsB]; exact List.Pairwise.nil
  | succ b ih =>
    intro t
    rw [walkSlotsB]
    split
    · exact List.pairwise_cons.mpr
        ⟨fun x hx => by have := walkSlotsB_le (d := d) (e := e) b (t + d) x hx; omega, ih (t + d)⟩
    · exact List.Pairwise.nil

theorem walkSlots_pairwise {d e s : Nat} (hd : 0 < d) :
    (walkSlots d e s).Pairwise (· < ·) :=
  walkSlotsB_pairwise hd _ s

theorem walkSlotsB_stable {d e : Nat} (hd : 0 < d) :
    ∀ b b' t, e + 1 - t ≤ b → e + 1 - t ≤ b' →
      walkSlotsB d e b t = walkSlotsB d e b' t := by
  intro b
  induction b with
  | zero =>
    intro b' t hb hb'
    cases b' with
    | zero => rfl
    | succ b' =>
      rw [walkSlotsB, walkSlotsB]
      split
      · omega
      · rfl
  | succ b ih =>
    intro b' t hb hb'
    cases b' with
    | zero =>
      rw [walkSlotsB, walkSlotsB]
      split
      · omega
      · rfl
    | succ b' =>
      rw [walkSlotsB, walkSlotsB]
      split
      · rename_i hguard
        rw [ih b' (t + d) (by omega) (by omega)]
      · rfl

/-! ### Lemmas about the decimal/string primitives -/

theorem digitChar_toNat : ∀ n, n < 10 → (digitChar n).toNat = 48 + n := by decide

theorem numVal_append (a b : List Char) :
    numVal (a ++ b) = b.foldl (fun x c => x * 10 + (c.toNat - 48)) (numVal a) :=
  List.foldl_append _ _ a b

theorem numVal_natDigitsB : ∀ b n, n < b → numVal (natDigitsB b n) = n := by
  intro b
  induction b with
  | zero => intro n h; omega
  | succ b ih =>
    intro n h
    rw [natDigitsB]
    split
    · rename_i h10
      simp [numVal, digitChar_toNat n h10]
    · rename_i h10
      rw [numVal_append, ih (n / 10) (by omega)]
      simp [digitChar_toNat (n % 10) (by omega)]
      omega

theorem numVal_natDigits (n : Nat) : numVal (natDigits n) = n :=
  numVal_natDigitsB (n + 1) n (Nat.lt_succ_self n)

theorem numVal_replicate_zero (j : Nat) (cs : List Char) :
    numVal (List.replicate j '0' ++ cs) = numVal cs := by
  induction j with
  | zero => rfl
  | succ j ih => simpa [List.replicate_succ, numVal] using ih

theorem numVal_padStart2 (cs : List Char) : numVal (padStart2 cs) = numVal cs := by
  rw [padStart2]
  split
  · rfl
  · exact numVal_replicate_zero _ cs

theorem natDigitsB_digits : ∀ b n, n < b → ∀ c ∈ natDigitsB b n, 48 ≤ c.toNat ∧ c.toNat ≤ 57 := by
  intro b
  induction b with
  | zero => intro n h; omega
  | succ b ih =>
    intro n h c hc
    rw [natDigitsB] at hc
    split at hc
    · rename_i h10
      simp at hc
      subst hc
      rw [digitChar_toNat n h10]
      omega
    · rename_i h10
      rcases List.mem_append.mp hc with h' | h'
      · exact ih (n / 10) (by omega) c h'
      · simp at h'
        subst h'
        rw [digitChar_toNat (n % 10) (by omega)]
        omega

theorem natDigits_digits (n : Nat) : ∀ c ∈ natDigits n, 48 ≤ c.toNat ∧ c.toNat ≤ 57 :=
  natDigitsB_digits (n + 1) n (Nat.lt_succ_self n)

theorem padStart2_digits (cs : List Char) (h : ∀ c ∈ cs, 48 ≤ c.toNat ∧ c.toNat ≤ 57) :
    ∀ c ∈ padStart2 cs, 48 ≤ c.toNat ∧ c.toNat ≤ 57 := by
  intro c hc
  rw [padStart2] at hc
  split at hc
  · exact h c hc
  · rcases List.mem_append.mp hc with h' | h'
    · have : c = '0' := List.eq_of_mem_replicate h'
      subst this
      decide
    · exact h c h'

theorem colon_not_mem_pad_natDigits (n : Nat) : ':' ∉ padStart2 (natDigits n) := by
  intro hc
  have := padStart2_digits (natDigits n) (natDigits_digits n) ':' hc
  simp at this

theorem splitOnChar_not_mem {c : Char} : ∀ {l : List Char}, c ∉ l → splitOnChar c l = [l] := by
  intro l
  induction l with
  | nil => intro _; rfl
  | cons x xs ih =>
    intro h
    have hx : ¬x = c := fun hc => h (hc ▸ List.mem_cons_self x xs)
    have hxs : c ∉ xs := fun hc => h (List.mem_cons_of_mem x hc)
    rw [splitOnChar]
    simp only [if_neg hx, ih hxs]
    rfl

theorem splitOnChar_append {c : Char} :
    ∀ {a : List Char}, c ∉ a → ∀ l, splitOnChar c (a ++ c :: l) = a :: splitOnChar c l := by
  intro a
  induction a with
  | nil =>
    intro _ l
    rw [List.nil_append, splitOnChar]
    simp
  | cons x xs ih =>
    intro h l
    have hx : ¬x = c := fun hc => h (hc ▸ List.mem_cons_self x xs)
    have hxs : c ∉ xs := fun hc => h (List.mem_cons_of_mem x hc)
    rw [List.cons_append, splitOnChar]
    simp only [if_neg hx, ih hxs l]
    rfl

theorem timeToMinutes_minutesToHHMM (m : Nat) : timeToMinutes (minutesToHHMM m) = m := by
  rw [timeToMinutes, minutesToHHMM]
  show (match splitOnChar ':' (padStart2 (natDigits (m / 60)) ++ ':' :: padStart2 (natDigits (m % 60))) with
    | hh :: mm :: _ => numVal hh * 60 + numVal mm
    | _ => 0) = m
  rw [splitOnChar_append (colon_not_mem_pad_natDigits (m / 60)),
    splitOnChar_not_mem (colon_not_mem_pad_natDigits (m % 60))]
  show numVal (padStart2 (natDigits (m / 60))) * 60 + numVal (padStart2 (natDigits (m % 60))) = m
  rw [numVal_padStart2, numVal_padStart2, numVal_natDigits, numVal_natDigits]
  omega

theorem minutesToHHMM_inj {a b : Nat} (h : minutesToHHMM a = minutesToHHMM b) : a = b := by
  have ha := timeToMinutes_minutesToHHMM a
  have hb := timeToMinutes_minutesToHHMM b
  rw [← ha, ← hb, h]

theorem digitChar_of_digit (c : Char) (h : 48 ≤ c.toNat) : digitChar (c.toNat - 48) = c := by
  rw [digitChar]
  have h48 : 48 + (c.toNat - 48) = c.toNat := by omega
  rw [h48, Char.ofNat_toNat]

theorem pad_natDigits_two_digit (c1 c2 : Char)
    (h1 : 48 ≤ c1.toNat ∧ c1.toNat ≤ 57) (h2 : 48 ≤ c2.toNat ∧ c2.toNat ≤ 57) :
    padStart2 (natDigits ((c1.toNat - 48) * 10 + (c2.toNat - 48))) = [c1, c2] := by
  set a := c1.toNat - 48 with ha
  set b := c2.toNat - 48 with hb
  have hab : a ≤ 9 ∧ b ≤ 9 := by omega
  by_cases haz : a = 0
  · have hc1 : c1 = '0' := by
      have := digitChar_of_digit c1 h1.1
      rw [← ha, haz] at this
      exact this.symm
    have hN : a * 10 + b = b := by omega
    rw [hN, natDigits, natDigitsB, if_pos (by omega : b < 10)]
    rw [padStart2, if_neg (by simp)]
    show ['0'] ++ [digitChar b] = [c1, c2]
    rw [hb, digitChar_of_digit c2 h2.1, hc1]
    rfl
  · have hN10 : 10 ≤ a * 10 + b := by omega
    obtain ⟨N', hN'⟩ : ∃ N', a * 10 + b = N' + 10 := ⟨a * 10 + b - 10, by omega⟩
    rw [natDigits, natDigitsB, if_neg (by omega)]
    have hdiv : (a * 10 + b) / 10 = a := by omega
    have hmod : (a * 10 + b) % 10 = b := by omega
    rw [hdiv, hmod]
    obtain ⟨F, hF⟩ : ∃ F, a * 10 + b = F + 1 := ⟨a * 10 + b - 1, by omega⟩
    rw [hF, natDigitsB, if_pos (by omega : a < 10)]
    rw [padStart2, if_pos (by simp)]
    rw [ha, hb, digitChar_of_digit c1 h1.1, digitChar_of_digit c2 h2.1]
    rfl

theorem numVal_pair (c1 c2 : Char) :
    numVal [c1, c2] = (c1.toNat - 48) * 10 + (c2.toNat - 48) := by
  simp [numVal]

theorem char_ne_colon {c : Char} (h : c.toNat ≤ 57) : ¬c = ':' := by
  intro hc
  subst hc
  simp at h

theorem minutesToHHMM_timeToMinutes (h1 h2 m1 m2 : Char)
    (hh1 : 48 ≤ h1.toNat ∧ h1.toNat ≤ 57) (hh2 : 48 ≤ h2.toNat ∧ h2.toNat ≤ 57)
    (hm1 : 48 ≤ m1.toNat ∧ m1.toNat ≤ 57) (hm2 : 48 ≤ m2.toNat ∧ m2.toNat ≤ 57)
    (hmm : (m1.toNat - 48) * 10 + (m2.toNat - 48) < 60) :
    minutesToHHMM (timeToMinutes ⟨[h1, h2, ':', m1, m2]⟩) = ⟨[h1, h2, ':', m1, m2]⟩ := by
  have hsplit : splitOnChar ':' [h1, h2, ':', m1, m2] = [[h1, h2], [m1, m2]] := by
    have hna : ':' ∉ [h1, h2] := by
      intro hc
      rcases List.mem_cons.mp hc with h | h
      · exact char_ne_colon hh1.2 h.symm
      · simp at h
        exact char_ne_colon hh2.2 h.symm
    have hnb : ':' ∉ [m1, m2] := by
      intro hc
      rcases List.mem_cons.mp hc with h | h
      · exact char_ne_colon hm1.2 h.symm
      · simp at h
        exact char_ne_colon hm2.2 h.symm
    have := splitOnChar_append (c := ':') (a := [h1, h2]) hna [m1, m2]
    rw [show ([h1, h2] ++ ':' :: [m1, m2]) = [h1, h2, ':', m1, m2] from rfl] at this
    rw [this, splitOnChar_not_mem hnb]
  rw [timeToMinutes]
  show minutesToHHMM (match splitOnChar ':' [h1, h2, ':', m1, m2] with
    | hh :: mm :: _ => numVal hh * 60 + numVal mm
    | _ => 0) = ⟨[h1, h2, ':', m1, m2]⟩
  rw [hsplit]
  show minutesToHHMM (numVal [h1, h2] * 60 + numVal [m1, m2]) = ⟨[h1, h2, ':', m1, m2]⟩
  rw [numVal_pair, numVal_pair, minutesToHHMM]
  have hdiv : (((h1.toNat - 48) * 10 + (h2.toNat - 48)) * 60 +
      ((m1.toNat - 48) * 10 + (m2.toNat - 48))) / 60 = (h1.toNat - 48) * 10 + (h2.toNat - 48) := by
    omega
  have hmod : (((h1.toNat - 48) * 10 + (h2.toNat - 48)) * 60 +
      ((m1.toNat - 48) * 10 + (m2.toNat - 48))) % 60 = (m1.toNat - 48) * 10 + (m2.toNat - 48) := by
    omega
  rw [hdiv, hmod, pad_natDigits_two_digit h1 h2 hh1 hh2, pad_natDigits_two_digit m1 m2 hm1 hm2]
  rfl

/-! ### Lemmas about the JS Map model -/

theorem mapGet_mapSet (m : List (String × Int)) (k k' : String) (v : Int) :
    mapGet (mapSet m k v) k' = if k' = k then some v else mapGet m k' := by
  induction m with
  | nil =>
    by_cases h : k' = k
    · subst h; simp [mapSet, mapGet]
    · simp [mapSet, mapGet, beq_iff_eq, h, Ne.symm h]
  | cons e rest ih =>
    rw [mapSet]
    by_cases he : e.1 = k
    · rw [if_pos (beq_iff_eq.mpr he)]
      by_cases h : k' = k
      · subst h; simp [mapGet, beq_iff_eq, he]
      · simp [mapGet, beq_iff_eq, h, he, Ne.symm h]
    · rw [if_neg (by simpa [beq_iff_eq] using he)]
      by_cases hek' : e.1 = k'
      · have hk : k' ≠ k := by rw [← hek']; exact he
        simp [mapGet, beq_iff_eq, hek', hk]
      · simp [mapGet, beq_iff_eq, hek', ih]

theorem mem_keys_mapSet (m : List (String × Int)) (k k' : String) (v : Int) :
    k' ∈ (mapSet m k v).map Prod.fst ↔ k' ∈ m.map Prod.fst ∨ k' = k := by
  induction m with
  | nil => simp [mapSet]
  | cons e rest ih =>
    rw [mapSet]
    by_cases he : e.1 = k
    · rw [if_pos (beq_iff_eq.mpr he)]
      simp [he]
      tauto
    · rw [if_neg (by simpa [beq_iff_eq] using he)]
      simp only [List.map_cons, List.mem_cons, ih]
      tauto

theorem nodup_keys_mapSet (m : List (String × Int)) (k : String) (v : Int)
    (h : (m.map Prod.fst).Nodup) : ((mapSet m k v).map Prod.fst).Nodup := by
  induction m with
  | nil => simp [mapSet]
  | cons e rest ih =>
    rw [mapSet]
    simp only [List.map_cons, List.nodup_cons] at h
    by_cases he : e.1 = k
    · rw [if_pos (beq_iff_eq.mpr he)]
      simpa [← he] using h
    · rw [if_neg (by simpa [beq_iff_eq] using he)]
      simp only [List.map_cons, List.nodup_cons]
      exact ⟨fun hc => by
        rcases (mem_keys_mapSet rest k e.1 v).mp hc with h' | h'
        · exact h.1 h'
        · exact he h', ih h.2⟩

/-! ### Characterization of the accumulation folds -/

/-- Generic shape of both accumulation loops: each element `x` bumps the entry
at key `g x` by a fixed amount `c`.  The resulting lookup is the base lookup
plus `c` times the number of elements mapping to the key. -/
theorem foldl_mapSet_add {α : Type} (g : α → String) (c : Int) :
    ∀ (l : List α) (m : List (String × Int)) (k : String),
      (mapGet (l.foldl (fun m x => mapSet m (g x) ((mapGet m (g x)).getD 0 + c)) m) k).getD 0
        = (mapGet m k).getD 0 + c * ((l.map g).count k : Int) := by
  intro l
  induction l with
  | nil => intro m k; simp
  | cons x l ih =>
    intro m k
    rw [List.foldl_cons, ih, mapGet_mapSet, List.map_cons, List.count_cons]
    by_cases h : k = g x
    · rw [if_pos h, if_pos (beq_iff_eq.mpr h.symm)]
      simp only [Option.getD_some]
      rw [h]
      push_cast
      ring
    · rw [if_neg h, if_neg (by simpa [beq_iff_eq] using fun hc => h hc.symm)]
      simp

/-- Generic key-membership of the accumulation loops (the stored value is
irrelevant, so it is an arbitrary function `v` of the map and element). -/
theorem mem_keys_foldl_mapSet {α : Type} (g : α → String) (v : List (String × Int) → α → Int) :
    ∀ (l : List α) (m : List (String × Int)) (k : String),
      (k ∈ (l.foldl (fun m x => mapSet m (g x) (v m x)) m).map Prod.fst ↔
        k ∈ m.map Prod.fst ∨ k ∈ l.map g) := by
  intro l
  induction l with
  | nil => intro m k; simp
  | cons x l ih =>
    intro m k
    rw [List.foldl_cons, ih, mem_keys_mapSet]
    simp only [List.map_cons, List.mem_cons]
    tauto

/-- The accumulation loops preserve key uniqueness. -/
theorem nodup_keys_foldl_mapSet {α : Type} (g : α → String) (v : List (String × Int) → α → Int) :
    ∀ (l : List α) (m : List (String × Int)), (m.map Prod.fst).Nodup →
      ((l.foldl (fun m x => mapSet m (g x) (v m x)) m).map Prod.fst).Nodup := by
  intro l
  induction l with
  | nil => intro m h; exact h
  | cons x l ih =>
    intro m h
    rw [List.foldl_cons]
    exact ih _ (nodup_keys_mapSet m (g x) (v m x) h)

/-- The grid of "HH:MM" labels one schedule shift generates. -/
def shiftLabels (duration : Nat) (s : DoctorSchedule) : List String :=
  (walkSlots duration (timeToMinutes s.end_time) (timeToMinutes s.start_time)).map minutesToHHMM

theorem addShift_get (d : Nat) (m : List (String × Int)) (s : DoctorSchedule) (k : String) :
    (mapGet (addShift d m s) k).getD 0 =
      (mapGet m k).getD 0 + (s.max_patients.getD 0) * ((shiftLabels d s).count k : Int) := by
  have h := foldl_mapSet_add minutesToHHMM (s.max_patients.getD 0)
    (walkSlots d (timeToMinutes s.end_time) (timeToMinutes s.start_time)) m k
  simpa [addShift, shiftLabels] using h

theorem bookedByTime_get (hhmms : List String) (k : String) :
    (mapGet (bookedByTime hhmms) k).getD 0 = (hhmms.count k : Int) := by
  have h := foldl_mapSet_add (fun s => s) 1 hhmms [] k
  simpa [bookedByTime, mapGet] using h

theorem foldl_addShift_get (d : Nat) (k : String) :
    ∀ (sch : List DoctorSchedule) (m : List (String × Int)),
      (mapGet (sch.foldl (addShift d) m) k).getD 0 =
        (mapGet m k).getD 0 +
          (sch.map (fun s => (s.max_patients.getD 0) * ((shiftLabels d s).count k : Int))).sum := by
  intro sch
  induction sch with
  | nil => intro m; simp
  | cons s sch ih =>
    intro m
    rw [List.foldl_cons, ih, addShift_get, List.map_cons, List.sum_cons]
    ring

theorem capacityByTime_get (d : Nat) (sch : List DoctorSchedule) (k : String) :
    (mapGet (capacityByTime d sch) k).getD 0 =
      (sch.map (fun s => (s.max_patients.getD 0) * ((shiftLabels d s).count k : Int))).sum := by
  rw [capacityByTime, foldl_addShift_get]
  simp [mapGet]

theorem mem_keys_addShift (d : Nat) (m : List (String × Int)) (s : DoctorSchedule) (k : String) :
    k ∈ (addShift d m s).map Prod.fst ↔ k ∈ m.map Prod.fst ∨ k ∈ shiftLabels d s := by
  have h := mem_keys_foldl_mapSet minutesToHHMM
    (fun m t => (mapGet m (minutesToHHMM t)).getD 0 + s.max_patients.getD 0)
    (walkSlots d (timeToMinutes s.end_time) (timeToMinutes s.start_time)) m k
  simpa [addShift, shiftLabels] using h

theorem mem_keys_capacityByTime (d : Nat) (sch : List DoctorSchedule) (k : String) :
    k ∈ (capacityByTime d sch).map Prod.fst ↔ ∃ s ∈ sch, k ∈ shiftLabels d s := by
  rw [capacityByTime]
  have main : ∀ (sch : List DoctorSchedule) (m : List (String × Int)),
      k ∈ (sch.foldl (addShift d) m).map Prod.fst ↔
        k ∈ m.map Prod.fst ∨ ∃ s ∈ sch, k ∈ shiftLabels d s := by
    intro sch
    induction sch with
    | nil => intro m; simp
    | cons s sch ih =>
      intro m
      rw [List.foldl_cons, ih, mem_keys_addShift]
      simp only [List.mem_cons]
      constructor
      · rintro ((h | h) | ⟨s', hs', h⟩)
        · exact Or.inl h
        · exact Or.inr ⟨s, Or.inl rfl, h⟩
        · exact Or.inr ⟨s', Or.inr hs', h⟩
      · rintro (h | ⟨s', hs' | hs', h⟩)
        · exact Or.inl (Or.inl h)
        · exact Or.inl (Or.inr (hs' ▸ h))
        · exact Or.inr ⟨s', hs', h⟩
  rw [main sch []]
  simp

theorem nodup_keys_capacityByTime (d : Nat) (sch : List DoctorSchedule) :
    ((capacityByTime d sch).map Prod.fst).Nodup := by
  rw [capacityByTime]
  have main : ∀ (sch : List DoctorSchedule) (m : List (String × Int)),
      (m.map Prod.fst).Nodup → ((sch.foldl (addShift d) m).map Prod.fst).Nodup := by
    intro sch
    induction sch with
    | nil => intro m h; exact h
    | cons s sch ih =>
      intro m h
      rw [List.foldl_cons]
      refine ih _ ?_
      have h' := nodup_keys_foldl_mapSet minutesToHHMM
        (fun m t => (mapGet m (minutesToHHMM t)).getD 0 + s.max_patients.getD 0)
        (walkSlots d (timeToMinutes s.end_time) (timeToMinutes s.start_time)) m h
      simpa [addShift] using h'
  exact main sch [] (by simp)

theorem keys_capacityByTime_in_range (d : Nat) (sch : List DoctorSchedule) (k : String)
    (hk : k ∈ (capacityByTime d sch).map Prod.fst) : ∃ t, k = minutesToHHMM t := by
  rcases (mem_keys_capacityByTime d sch k).mp hk with ⟨s, _, hlbl⟩
  rcases List.mem_map.mp hlbl with ⟨t, _, rfl⟩
  exact ⟨t, rfl⟩

theorem shiftLabels_nodup (d : Nat) (hd : 0 < d) (s : DoctorSchedule) :
    (shiftLabels d s).Nodup := by
  rw [shiftLabels]
  refine List.Nodup.map_on ?_ ?_
  · intro x _ y _ hxy
    exact minutesToHHMM_inj hxy
  · exact (walkSlots_pairwise hd).imp Nat.ne_of_lt

/-! ### Lemmas about the aggregate result -/

theorem aggregate_mem (d : Nat) (sch : List DoctorSchedule) (bh : List String) (x : SlotStat) :
    x ∈ aggregate d sch bh ↔
      ((∃ e ∈ capacityByTime d sch,
          x = { time := e.1, capacity := e.2,
                booked := (mapGet (bookedByTime bh) e.1).getD 0,
                available := max (e.2 - (mapGet (bookedByTime bh) e.1).getD 0) 0 }) ∧
        0 < x.available) := by
  simp only [aggregate]
  rw [(List.perm_insertionSort slotLe _).mem_iff, List.mem_filter]
  simp only [List.mem_map, decide_eq_true_eq]
  constructor
  · rintro ⟨⟨e, he, rfl⟩, hav⟩
    exact ⟨⟨e, he, rfl⟩, hav⟩
  · rintro ⟨⟨e, he, rfl⟩, hav⟩
    exact ⟨⟨e, he, rfl⟩, hav⟩

theorem aggregate_times_nodup (d : Nat) (sch : List DoctorSchedule) (bh : List String) :
    ((aggregate d sch bh).map SlotStat.time).Nodup := by
  have hperm : (aggregate d sch bh).Perm
      (((capacityByTime d sch).map (fun e =>
        let b := (mapGet (bookedByTime bh) e.1).getD 0
        ({ time := e.1, capacity := e.2, booked := b, available := max (e.2 - b) 0 } : SlotStat))).filter
      (fun s => decide (0 < s.available))) := by
    simp only [aggregate]
    exact List.perm_insertionSort slotLe _
  refine ((List.Perm.map SlotStat.time hperm).nodup_iff).mpr ?_
  have hsub : (((capacityByTime d sch).map (fun e =>
        let b := (mapGet (bookedByTime bh) e.1).getD 0
        ({ time := e.1, capacity := e.2, booked := b, available := max (e.2 - b) 0 } : SlotStat))).filter
      (fun s => decide (0 < s.available))).Sublist
      ((capacityByTime d sch).map (fun e =>
        let b := (mapGet (bookedByTime bh) e.1).getD 0
        ({ time := e.1, capacity := e.2, booked := b, available := max (e.2 - b) 0 } : SlotStat))) :=
    List.filter_sublist _
  have hmapsub := hsub.map SlotStat.time
  rw [List.map_map] at hmapsub
  have hkeys : ((capacityByTime d sch).map
      (SlotStat.time ∘ (fun e =>
        let b := (mapGet (bookedByTime bh) e.1).getD 0
        ({ time := e.1, capacity := e.2, booked := b, available := max (e.2 - b) 0 } : SlotStat)))) =
      (capacityByTime d sch).map Prod.fst := by
    apply List.map_congr_left
    intro e _
    rfl
  rw [hkeys] at hmapsub
  exact (nodup_keys_capacityByTime d sch).sublist hmapsub

theorem aggregate_times_in_range (d : Nat) (sch : List DoctorSchedule) (bh : List String)
    (x : SlotStat) (hx : x ∈ aggregate d sch bh) : ∃ t, x.time = minutesToHHMM t := by
  rcases (aggregate_mem d sch bh x).mp hx with ⟨⟨e, he, rfl⟩, _⟩
  exact keys_capacityByTime_in_range d sch e.1 (List.mem_map_of_mem Prod.fst he)

theorem aggregate_sorted_strict (d : Nat) (sch : List DoctorSchedule) (bh : List String) :
    (aggregate d sch bh).Pairwise
      (fun a b => timeToMinutes a.time < timeToMinutes b.time) := by
  have hle : (aggregate d sch bh).Pairwise slotLe := by
    simp only [aggregate]
    exact List.sorted_insertionSort slotLe _
  have hne : (aggregate d sch bh).Pairwise (fun a b => a.time ≠ b.time) :=
    List.pairwise_map.mp (aggregate_times_nodup d sch bh)
  refine (hle.and hne).imp_of_mem ?_
  rintro a b ha hb ⟨hab, hne'⟩
  rcases aggregate_times_in_range d sch bh a ha with ⟨u, hu⟩
  rcases aggregate_times_in_range d sch bh b hb with ⟨v, hv⟩
  rw [slotLe, hu, hv, timeToMinutes_minutesToHHMM, timeToMinutes_minutesToHHMM] at hab
  have huv : u ≠ v := fun hc => hne' (by rw [hu, hv, hc])
  rw [hu, hv, timeToMinutes_minutesToHHMM, timeToMinutes_minutesToHHMM]
  omega

/-! ### Lemmas about the full pipeline -/

theorem getAvailableSlots_ok_cases (db : Db) (p : GetAvailableSlotsDto) (slots : List SlotStat)
    (h : getAvailableSlots db p = .ok slots) :
    slots = [] ∨ ∃ d sch bh, slots = aggregate d sch bh := by
  simp only [getAvailableSlots] at h
  split at h
  · exact absurd h (by simp)
  · split at h
    · split at h
      · left
        exact (Except.ok.injEq _ _).mp h.symm
      · split at h
        · left
          exact (Except.ok.injEq _ _).mp h.symm
        · right
          exact ⟨_, _, _, ((Except.ok.injEq _ _).mp h).symm⟩
    · exact absurd h (by simp)

/-! ### Equivalence of the Supabase-backed and Prisma-backed variants -/

theorem prisma_timeToMinutes_eq (t : String) :
    PrismaVariant.timeToMinutes t = timeToMinutes t := rfl

theorem prisma_minutesToHHMM_eq (m : Nat) :
    PrismaVariant.minutesToHHMM m = minutesToHHMM m := rfl

theorem prisma_walkSlotsB_eq (d e : Nat) :
    ∀ b t, PrismaVariant.walkSlotsB d e b t = walkSlotsB d e b t := by
  intro b
  induction b with
  | zero => intro t; rfl
  | succ b ih =>
    intro t
    rw [PrismaVariant.walkSlotsB, walkSlotsB, ih]

theorem prisma_walkSlots_eq (d e s : Nat) :
    PrismaVariant.walkSlots d e s = walkSlots d e s :=
  prisma_walkSlotsB_eq d e _ s

theorem prisma_bookedByTime_eq (hhmms : List String) :
    PrismaVariant.bookedByTime hhmms = bookedByTime hhmms := rfl

theorem prisma_addShift_eq (d : Nat) (m : List (String × Int)) (s : DoctorSchedule) :
    PrismaVariant.addShift d m s = addShift d m s := by
  simp only [PrismaVariant.addShift, addShift, prisma_walkSlots_eq,
    prisma_minutesToHHMM_eq, prisma_timeToMinutes_eq]

theorem prisma_capacityByTime_eq (d : Nat) (sch : List DoctorSchedule) :
    PrismaVariant.capacityByTime d sch = capacityByTime d sch := by
  rw [PrismaVariant.capacityByTime, capacityByTime]
  have : PrismaVariant.addShift d = addShift d := by
    funext m s
    exact prisma_addShift_eq d m s
  rw [this]

/-- The aggregation depends on the bookings only through the per-label counts,
so permuting the booking list does not change the result. -/
theorem aggregate_perm_bookings (d : Nat) (sch : List DoctorSchedule) (b1 b2 : List String)
    (hb : b1.Perm b2) : aggregate d sch b1 = aggregate d sch b2 := by
  simp only [aggregate]
  have hmap : ∀ e : String × Int,
      (mapGet (bookedByTime b1) e.1).getD 0 = (mapGet (bookedByTime b2) e.1).getD 0 := by
    intro e
    rw [bookedByTime_get, bookedByTime_get, hb.count_eq]
  have : ((capacityByTime d sch).map (fun e =>
      let b := (mapGet (bookedByTime b1) e.1).getD 0
      ({ time := e.1, capacity := e.2, booked := b, available := max (e.2 - b) 0 } : SlotStat))) =
      ((capacityByTime d sch).map (fun e =>
      let b := (mapGet (bookedByTime b2) e.1).getD 0
      ({ time := e.1, capacity := e.2, booked := b, available := max (e.2 - b) 0 } : SlotStat))) := by
    apply List.map_congr_left
    intro e _
    simp only [hmap e]
  rw [this]

theorem prisma_aggregate_eq (d : Nat) (sch : List DoctorSchedule) (bh : List String) :
    PrismaVariant.aggregate d sch bh = aggregate d sch bh := by
  simp only [PrismaVariant.aggregate, aggregate, prisma_bookedByTime_eq,
    prisma_capacityByTime_eq]

/-! ### Claim theorems -/

/-- Small concrete database snapshot used by the witnesses: one 30-minute
service, one available doctor offering it at clinic c1, one 07:00–08:00 shift
with capacity 2 on 2025-01-06, and one pending booking at 07:00. -/
def exampleDb : Db :=
  ⟨[⟨"s1", some 30⟩],
   [⟨"d1", "c1", true, ["s1"]⟩],
   [⟨"d1", "2025-01-06", true, "07:00:00", "08:00:00", some 2⟩],
   [⟨"c1", "s1", "pending", "2025-01-06 07:00:00"⟩]⟩

/-- C1: for a shift running from minute s to minute e and service duration d,
the capacity walk emits exactly the cursor values s, s + d, s + 2d, … for
which a full duration still fits (t + d ≤ e), and none with t + d > e; in
particular a 07:00–07:50 shift with duration 30 generates only the label
"07:00" and no short final slot. -/
theorem c1_slot_grid_exact (d e s : Nat) (hd : 0 < d) :
    (∀ t, t ∈ walkSlots d e s ↔ ∃ k, t = s + k * d ∧ t + d ≤ e) ∧
      (walkSlots 30 (timeToMinutes "07:50") (timeToMinutes "07:00")).map minutesToHHMM
        = ["07:00"] :=
  ⟨fun t => walkSlots_mem hd t, by decide⟩

theorem c1_slot_grid_exact_witness :
    0 < 30 ∧
      ((∀ t, t ∈ walkSlots 30 470 420 ↔ ∃ k, t = 420 + k * 30 ∧ t + 30 ≤ 470) ∧
        (walkSlots 30 (timeToMinutes "07:50") (timeToMinutes "07:00")).map minutesToHHMM
          = ["07:00"]) :=
  ⟨by decide, c1_slot_grid_exact 30 470 420 (by decide)⟩

/-- C2: the capacity stored at any time label equals the sum of max_patients
over all shifts whose generated slot grid contains that label (capacity
pooling across doctors and shifts). -/
theorem c2_capacity_pools_shifts (d : Nat) (hd : 0 < d) (sch : List DoctorSchedule)
    (lbl : String) :
    (mapGet (capacityByTime d sch) lbl).getD 0 =
      (sch.map (fun s => if lbl ∈ shiftLabels d s then s.max_patients.getD 0 else 0)).sum := by
  rw [capacityByTime_get]
  refine congrArg List.sum (List.map_congr_left ?_)
  intro s _
  by_cases hmem : lbl ∈ shiftLabels d s
  · rw [if_pos hmem, List.count_eq_one_of_mem (shiftLabels_nodup d hd s) hmem]
    simp
  · rw [if_neg hmem, List.count_eq_zero.mpr hmem]
    simp

theorem c2_capacity_pools_shifts_witness :
    0 < 30 ∧
      ((mapGet (capacityByTime 30
          [⟨"d1", "2025-01-06", true, "09:00:00", "09:30:00", some 5⟩,
           ⟨"d2", "2025-01-06", true, "09:00:00", "09:30:00", some 3⟩]) "09:00").getD 0 =
        ([⟨"d1", "2025-01-06", true, "09:00:00", "09:30:00", some 5⟩,
          ⟨"d2", "2025-01-06", true, "09:00:00", "09:30:00", some 3⟩].map
            (fun s => if "09:00" ∈ shiftLabels 30 s then s.max_patients.getD 0 else 0)).sum) ∧
      (mapGet (capacityByTime 30
          [⟨"d1", "2025-01-06", true, "09:00:00", "09:30:00", some 5⟩,
           ⟨"d2", "2025-01-06", true, "09:00:00", "09:30:00", some 3⟩]) "09:00").getD 0 = 8 :=
  ⟨by decide,
   c2_capacity_pools_shifts 30 (by decide)
     [⟨"d1", "2025-01-06", true, "09:00:00", "09:30:00", some 5⟩,
      ⟨"d2", "2025-01-06", true, "09:00:00", "09:30:00", some 3⟩] "09:00",
   by decide⟩

/-- C3: every returned SlotStat satisfies available = max(capacity − booked, 0)
(never negative), and only entries with available > 0 survive the filter. -/
theorem c3_available_floor_positive (db : Db) (p : GetAvailableSlotsDto)
    (slots : List SlotStat) (h : getAvailableSlots db p = .ok slots) :
    ∀ x ∈ slots, x.available = max (x.capacity - x.booked) 0 ∧ 0 < x.available := by
  rcases getAvailableSlots_ok_cases db p slots h with rfl | ⟨d, sch, bh, rfl⟩
  · intro x hx
    simp at hx
  · intro x hx
    rcases (aggregate_mem d sch bh x).mp hx with ⟨⟨e, _, rfl⟩, hav⟩
    exact ⟨rfl, hav⟩

theorem c3_available_floor_positive_witness :
    getAvailableSlots exampleDb ⟨some "c1", some "s1", some "2025-01-06"⟩ =
        .ok [⟨"07:00", 2, 1, 1⟩, ⟨"07:30", 2, 0, 2⟩] ∧
      ∀ x ∈ ([⟨"07:00", 2, 1, 1⟩, ⟨"07:30", 2, 0, 2⟩] : List SlotStat),
        x.available = max (x.capacity - x.booked) 0 ∧ 0 < x.available :=
  ⟨rfl, c3_available_floor_positive exampleDb ⟨some "c1", some "s1", some "2025-01-06"⟩
    [⟨"07:00", 2, 1, 1⟩, ⟨"07:30", 2, 0, 2⟩] rfl⟩

/-- C4: bookings count against a slot only by exact minute-resolution string
equality of the truncated "HH:MM" with a generated capacity label: each
returned slot's booked equals the number of bookings whose truncated time
equals its label, and every returned time label comes from the capacity
index (a booking off the grid surfaces nowhere). -/
theorem c4_booked_exact_label_match (d : Nat) (sch : List DoctorSchedule)
    (raw : List String) (x : SlotStat)
    (hx : x ∈ aggregate d sch (raw.map (fun ts => strSlice ts 11 16))) :
    x.booked = ((raw.map (fun ts => strSlice ts 11 16)).count x.time : Int) ∧
      x.time ∈ (capacityByTime d sch).map Prod.fst := by
  rcases (aggregate_mem _ _ _ x).mp hx with ⟨⟨e, he, rfl⟩, _⟩
  exact ⟨bookedByTime_get _ e.1, List.mem_map_of_mem Prod.fst he⟩

theorem c4_booked_exact_label_match_witness :
    (⟨"07:00", 2, 1, 1⟩ : SlotStat) ∈
        aggregate 30 [⟨"d1", "2025-01-06", true, "07:00:00", "08:00:00", some 2⟩]
          ((["2025-01-06 07:00:00", "2025-01-06 06:55:00"]).map
            (fun ts => strSlice ts 11 16)) ∧
      ((⟨"07:00", 2, 1, 1⟩ : SlotStat).booked =
          (((["2025-01-06 07:00:00", "2025-01-06 06:55:00"]).map
            (fun ts => strSlice ts 11 16)).count (⟨"07:00", 2, 1, 1⟩ : SlotStat).time : Int) ∧
        (⟨"07:00", 2, 1, 1⟩ : SlotStat).time ∈
          (capacityByTime 30
            [⟨"d1", "2025-01-06", true, "07:00:00", "08:00:00", some 2⟩]).map Prod.fst) :=
  ⟨by decide,
   c4_booked_exact_label_match 30 [⟨"d1", "2025-01-06", true, "07:00:00", "08:00:00", some 2⟩]
     ["2025-01-06 07:00:00", "2025-01-06 06:55:00"] ⟨"07:00", 2, 1, 1⟩ (by decide)⟩

/-- C5: the result sequence is strictly ascending in minutes-since-midnight of
the time labels, and no two entries share a time label. -/
theorem c5_result_sorted_strict (db : Db) (p : GetAvailableSlotsDto)
    (slots : List SlotStat) (h : getAvailableSlots db p = .ok slots) :
    slots.Pairwise (fun a b => timeToMinutes a.time < timeToMinutes b.time) ∧
      (slots.map SlotStat.time).Nodup := by
  rcases getAvailableSlots_ok_cases db p slots h with rfl | ⟨d, sch, bh, rfl⟩
  · exact ⟨List.Pairwise.nil, List.nodup_nil⟩
  · exact ⟨aggregate_sorted_strict d sch bh, aggregate_times_nodup d sch bh⟩

theorem c5_result_sorted_strict_witness :
    getAvailableSlots exampleDb ⟨some "c1", some "s1", some "2025-01-06"⟩ =
        .ok [⟨"07:00", 2, 1, 1⟩, ⟨"07:30", 2, 0, 2⟩] ∧
      (([⟨"07:00", 2, 1, 1⟩, ⟨"07:30", 2, 0, 2⟩] : List SlotStat).Pairwise
          (fun a b => timeToMinutes a.time < timeToMinutes b.time) ∧
        (([⟨"07:00", 2, 1, 1⟩, ⟨"07:30", 2, 0, 2⟩] : List SlotStat).map SlotStat.time).Nodup) :=
  ⟨rfl, c5_result_sorted_strict exampleDb ⟨some "c1", some "s1", some "2025-01-06"⟩
    [⟨"07:00", 2, 1, 1⟩, ⟨"07:30", 2, 0, 2⟩] rfl⟩

/-- C6: with all parameters present, a missing service row raises NotFound,
while an existing service with no eligible doctors, or no available schedules
on the date, yields an empty successful result rather than an error. -/
theorem c6_notfound_vs_empty (db : Db) (c s dt : String)
    (hc : c ≠ "") (hs : s ≠ "") (hd : dt ≠ "") :
    (db.services.filter (fun sv => sv.id == s) = [] →
      getAvailableSlots db ⟨some c, some s, some dt⟩ = .error (.notFound "Service not found")) ∧
    (∀ sv, db.services.filter (fun sv => sv.id == s) = [sv] →
      eligibleDoctors db c s = [] →
      getAvailableSlots db ⟨some c, some s, some dt⟩ = .ok []) ∧
    (∀ sv, db.services.filter (fun sv => sv.id == s) = [sv] →
      schedulesOn db ((eligibleDoctors db c s).map Doctor.id) dt = [] →
      getAvailableSlots db ⟨some c, some s, some dt⟩ = .ok []) := by
  have hfe : ∀ u : String, u ≠ "" → u.isEmpty = false := fun u hu =>
    Bool.eq_false_iff.mpr (fun hcon => hu ((String.isEmpty_iff u).mp hcon))
  have hfalsy : (jsFalsy (some c) || jsFalsy (some s) || jsFalsy (some dt)) = false := by
    simp [jsFalsy, hfe c hc, hfe s hs, hfe dt hd]
  refine ⟨?_, ?_, ?_⟩
  · intro hfilter
    simp only [getAvailableSlots, hfalsy, Bool.false_eq_true, if_false, Option.getD_some]
    rw [hfilter]
  · intro sv hfilter hdocs
    simp only [getAvailableSlots, hfalsy, Bool.false_eq_true, if_false, Option.getD_some]
    rw [hfilter]
    simp [hdocs]
  · intro sv hfilter hsch
    simp only [getAvailableSlots, hfalsy, Bool.false_eq_true, if_false, Option.getD_some]
    rw [hfilter]
    by_cases hde : (eligibleDoctors db c s).isEmpty
    · simp [hde]
    · simp [hde, hsch]

theorem c6_notfound_vs_empty_witness :
    getAvailableSlots (⟨[], [], [], []⟩ : Db) ⟨some "c1", some "s1", some "2025-01-06"⟩ =
      .error (.notFound "Service not found") :=
  (c6_notfound_vs_empty ⟨[], [], [], []⟩ "c1" "s1" "2025-01-06"
    (by decide) (by decide) (by decide)).1 rfl

/-- C7 counterexample: a request whose date parameter is present but malformed
("9999-99-99" is no calendar date) is not rejected as InvalidRequest; the
computation proceeds and returns a normal (here empty) result. -/
theorem c7_counterexample_malformed_date :
    getAvailableSlots (⟨[⟨"s1", some 30⟩], [], [], []⟩ : Db)
      ⟨some "c1", some "s1", some "9999-99-99"⟩ = .ok [] := rfl

/-- C7 amended: the InvalidRequest (BadRequestException "Missing query
params") error is raised exactly when at least one of clinic_id, service_id,
date is missing or empty (JS-falsy); present-but-malformed values pass the
guard and are never rejected as InvalidRequest. -/
theorem c7_badrequest_iff_missing (db : Db) (p : GetAvailableSlotsDto) :
    getAvailableSlots db p = .error (.badRequest "Missing query params") ↔
      (jsFalsy p.clinic_id || jsFalsy p.service_id || jsFalsy p.date) = true := by
  constructor
  · intro h
    by_contra hb
    have hb' : (jsFalsy p.clinic_id || jsFalsy p.service_id || jsFalsy p.date) = false :=
      Bool.eq_false_iff.mpr hb
    simp only [getAvailableSlots, hb', Bool.false_eq_true, if_false] at h
    split at h
    · split at h
      · simp at h
      · split at h
        · simp at h
        · simp at h
    · simp at h
  · intro h
    simp [getAvailableSlots, h]

/-- C8: under the precondition that the service duration is positive when
present (defaulting to 30 when unset), the capacity-walk loop terminates:
past the bound endt + 1 − t the bounded loop no longer depends on the bound
and equals walkSlots. -/
theorem c8_capacity_walk_terminates (dm : Option Nat) (hdm : ∀ v ∈ dm, 0 < v)
    (e t fuel : Nat) (hf : e + 1 - t ≤ fuel) :
    walkSlotsB (dm.getD 30) e fuel t = walkSlots (dm.getD 30) e t := by
  have hd : 0 < dm.getD 30 := by
    cases dm with
    | none => decide
    | some v => exact hdm v rfl
  rw [walkSlots]
  exact walkSlotsB_stable hd fuel (e + 1 - t) t hf (Nat.le_refl _)

theorem c8_capacity_walk_terminates_witness :
    480 + 1 - 420 ≤ 61 ∧
      walkSlotsB ((some 30 : Option Nat).getD 30) 480 61 420 =
        walkSlots ((some 30 : Option Nat).getD 30) 480 420 :=
  ⟨by decide, c8_capacity_walk_terminates (some 30)
    (by intro v hv; cases hv; decide) 480 420 61 (by decide)⟩

/-- C9: the Supabase-backed and Prisma-backed aggregations agree: for the same
duration, the same schedule rows and the same multiset of booking time-of-day
strings, both return the same ordered SlotStat sequence. -/
theorem c9_variants_agree (d : Nat) (sch : List DoctorSchedule) (b1 b2 : List String)
    (hb : b1.Perm b2) : aggregate d sch b1 = PrismaVariant.aggregate d sch b2 := by
  rw [prisma_aggregate_eq]
  exact aggregate_perm_bookings d sch b1 b2 hb

theorem c9_variants_agree_witness :
    (["09:00", "07:00"] : List String).Perm ["07:00", "09:00"] ∧
      aggregate 30 [⟨"d1", "2025-01-06", true, "07:00:00", "10:00:00", some 5⟩]
          ["09:00", "07:00"] =
        PrismaVariant.aggregate 30 [⟨"d1", "2025-01-06", true, "07:00:00", "10:00:00", some 5⟩]
          ["07:00", "09:00"] :=
  ⟨List.Perm.swap "07:00" "09:00" [],
   c9_variants_agree 30 [⟨"d1", "2025-01-06", true, "07:00:00", "10:00:00", some 5⟩]
     ["09:00", "07:00"] ["07:00", "09:00"] (List.Perm.swap "07:00" "09:00" [])⟩

/-- C10: the time helpers form a round-trip pair: timeToMinutes inverts
minutesToHHMM on every natural number, and minutesToHHMM inverts
timeToMinutes on every well-formed fixed-width "HH:MM" string (two digit
characters per component, minutes below 60). -/
theorem c10_time_roundtrip (m : Nat) (h1 h2 m1 m2 : Char)
    (hh1 : 48 ≤ h1.toNat ∧ h1.toNat ≤ 57) (hh2 : 48 ≤ h2.toNat ∧ h2.toNat ≤ 57)
    (hm1 : 48 ≤ m1.toNat ∧ m1.toNat ≤ 57) (hm2 : 48 ≤ m2.toNat ∧ m2.toNat ≤ 57)
    (hmm : (m1.toNat - 48) * 10 + (m2.toNat - 48) < 60) :
    timeToMinutes (minutesToHHMM m) = m ∧
      minutesToHHMM (timeToMinutes ⟨[h1, h2, ':', m1, m2]⟩) = ⟨[h1, h2, ':', m1, m2]⟩ :=
  ⟨timeToMinutes_minutesToHHMM m,
   minutesToHHMM_timeToMinutes h1 h2 m1 m2 hh1 hh2 hm1 hm2 hmm⟩

theorem c10_time_roundtrip_witness :
    (48 ≤ ('5' : Char).toNat ∧ ('5' : Char).toNat ≤ 57) ∧
      (timeToMinutes (minutesToHHMM 425) = 425 ∧
        minutesToHHMM (timeToMinutes ⟨['0', '7', ':', '0', '5']⟩) =
          ⟨['0', '7', ':', '0', '5']⟩) :=
  ⟨by decide, c10_time_roundtrip 425 '0' '7' '0' '5'
    (by decide) (by decide) (by decide) (by decide) (by decide)⟩

end BookingClinic
